import Mathlib

/-!
Verification development for the storyteller repository.

Part A embeds the frontend TypeScript components that are present in the
repository sources: the corpus dropdown filtering
(`storyteller_frontend/src/components/dropdowns/CorpusDropdown.tsx`), the
generic dropdown keyboard navigation (`BaseDropdown.tsx`), URL construction
(`config/api.config.ts` and the API client), and the SSE stream state
(`useSSE`).

Part B models the corpus ingestion and hybrid retrieval subsystem.  That
subsystem's code (registry, ingestion pipeline, hybrid retriever) is not
among the repository source files; it is modelled from the specification's
own description and verified against the properties the specification
claims for it.
-/

namespace Storyteller

/-! ### Part A.1: CorpusInfo and the corpus dropdown (CorpusDropdown.tsx) -/

/-- Mirror of the `CorpusInfo` interface in `types/api.types.ts`. -/
structure CorpusInfo where
  name : String
  display_name : String
  description : String
  is_active : Bool
  chunk_count : Nat
  needs_rebuild : Bool
  missing_components : List String
deriving Repr, DecidableEq

/-- The corpus list offered by `CorpusDropdown`: the `loadCorpuses` effect
stores `data.filter((c) => c.is_active)` into component state, and the
dropdown renders exactly that stored list as its items. -/
def corpusDropdownItems (data : List CorpusInfo) : List CorpusInfo :=
  data.filter fun c => c.is_active

/-! ### Part A.2: BaseDropdown keyboard navigation (BaseDropdown.tsx) -/

/-- The ArrowDown key handler:
`setHighlightedIndex((prev) => (prev < items.length - 1 ? prev + 1 : prev))`. -/
def arrowDown (items : List Nat) (prev : Int) : Int :=
  if prev < (items.length : Int) - 1 then prev + 1 else prev

/-- The ArrowUp key handler:
`setHighlightedIndex((prev) => (prev > 0 ? prev - 1 : 0))`. -/
def arrowUp (prev : Int) : Int :=
  if prev > 0 then prev - 1 else 0

/-- The Enter key guard:
`if (highlightedIndex >= 0 && highlightedIndex < items.length)`. -/
def enterFires (items : List Nat) (hi : Int) : Bool :=
  decide (0 ≤ hi) && decide (hi < (items.length : Int))

/-- The item handed to `handleSelect` on Enter: `items[highlightedIndex]`,
reached only when the Enter guard holds. -/
def enterSelect (items : List Nat) (hi : Int) : Option Nat :=
  if 0 ≤ hi ∧ hi < (items.length : Int) then items[hi.toNat]? else none

/-- The index range `[-1, items.length - 1]` named by the claim. -/
def hlRange (items : List Nat) (hi : Int) : Prop :=
  -1 ≤ hi ∧ hi ≤ (items.length : Int) - 1

instance (items : List Nat) (hi : Int) : Decidable (hlRange items hi) := by
  unfold hlRange
  infer_instance

/-! ### Part A.3: URL construction (config/api.config.ts, services/api.ts) -/

/-- A value of the TypeScript union `string | number | boolean` accepted by
`buildURL`'s `params` record. -/
inductive QueryValue where
  | str (s : String)
  | num (n : Int)
  | boolean (b : Bool)
deriving Repr, DecidableEq

/-- JavaScript `String(value)` on a query value. -/
def valueToString : QueryValue → String
  | .str s => s
  | .num n => toString n
  | .boolean b => if b then "true" else "false"

/-- Model of the JavaScript `URL` object as `buildURL` uses it: a path plus
the ordered `searchParams` pair list that `toString` serializes. -/
structure URLModel where
  path : String
  queryPairs : List (String × String)
deriving Repr, DecidableEq

/-- `url.searchParams.append(key, value)`. -/
def appendSearchParam (u : URLModel) (key value : String) : URLModel :=
  URLModel.mk u.path (u.queryPairs ++ [(key, value)])

/-- `buildURL(endpoint, params)`: starts from `new URL(endpoint, baseURL)`
(no query) and appends `key=String(value)` for every entry of `params`
in order. -/
def buildURL (endpoint : String) (params : List (String × QueryValue)) : URLModel :=
  params.foldl (fun u kv => appendSearchParam u kv.1 (valueToString kv.2)) (URLModel.mk endpoint [])

/-- The parameter object accepted by `buildStreamStoryURL`; `Option` marks
the optional fields, `none` meaning the caller omitted the field so that
`Object.entries` does not see it. -/
structure StreamStoryParams where
  prompt : String
  choice_id : Option String
  new_journey : Option Bool
  story_length : Option Int
  persona_name : Option String
  randomize_retrieval : Option Bool
  username : Option String
  corpus_name : Option String
deriving Repr, DecidableEq

/-- The entry list contributed by one optional field. -/
def optEntry (key : String) (v : Option QueryValue) : List (String × QueryValue) :=
  match v with
  | some q => [(key, q)]
  | none => []

/-- The entries of the params object passed to `buildURL` by
`buildStreamStoryURL`, in object-literal insertion order. -/
def streamStoryEntries (p : StreamStoryParams) : List (String × QueryValue) :=
  ("prompt", QueryValue.str p.prompt)
    :: (optEntry "choice_id" (p.choice_id.map QueryValue.str)
      ++ optEntry "new_journey" (p.new_journey.map QueryValue.boolean)
      ++ optEntry "story_length" (p.story_length.map QueryValue.num)
      ++ optEntry "persona_name" (p.persona_name.map QueryValue.str)
      ++ optEntry "randomize_retrieval" (p.randomize_retrieval.map QueryValue.boolean)
      ++ optEntry "username" (p.username.map QueryValue.str)
      ++ optEntry "corpus_name" (p.corpus_name.map QueryValue.str))

/-- `buildStreamStoryURL(params)` from the API client: delegates to
`buildURL(API_CONFIG.endpoints.streamStory, params)`. -/
def buildStreamStoryURL (p : StreamStoryParams) : URLModel :=
  buildURL "/api/stream_story" (streamStoryEntries p)

theorem buildURL_foldl_queryPairs (params : List (String × QueryValue)) (u : URLModel) :
    (params.foldl (fun u kv => appendSearchParam u kv.1 (valueToString kv.2)) u).queryPairs
      = u.queryPairs ++ params.map (fun kv => (kv.1, valueToString kv.2)) := by
  induction params generalizing u with
  | nil => simp
  | cons kv rest ih =>
    simp only [List.foldl_cons]
    rw [ih]
    simp [appendSearchParam]

/-! ### Part A.4: the SSE hook (useSSE.ts) -/

/-- Mirror of `GraphNode` in `types/graph.types.ts` (the `type` field is
renamed `nodeType` because `type` is a Lean keyword). -/
structure GraphNode where
  id : String
  nodeType : String
  label : String
deriving Repr, DecidableEq

/-- Mirror of `GraphData` in `types/graph.types.ts`. -/
structure GraphData where
  nodes : List GraphNode
  links : List (String × String)
deriving Repr, DecidableEq

/-- The SSE event kinds `useSSE` registers listeners for. -/
inductive SSEEvent where
  | storyChunk (payload : String)
  | graphPayload (payload : String)
  | streamEnd
  | streamFailure
deriving Repr, DecidableEq

/-- The `useSSE` hook's state variables. -/
structure SSEState where
  streamingText : String
  graphData : Option GraphData
  isStreaming : Bool
  errorMessage : Option String
deriving Repr, DecidableEq

/-- State set by the effect before the stream starts: text `''`, graph
`null`, error `null`, `isStreaming` true. -/
def initialSSEState : SSEState :=
  SSEState.mk "" none true none

/-- One event dispatch of `useSSE`.  `handleChunk` appends `event.data` to
`streamingText`; `handleGraph` parses the payload and stores either the
graph or a parse error; `end` and `error` close the stream. -/
def sseStep (parseGraph : String → Option GraphData) (s : SSEState) : SSEEvent → SSEState
  | .storyChunk d => { s with streamingText := s.streamingText ++ d }
  | .graphPayload d =>
    match parseGraph d with
    | some g => { s with graphData := some g }
    | none => { s with errorMessage := some "Failed to parse graph data" }
  | .streamEnd => { s with isStreaming := false }
  | .streamFailure => { s with errorMessage := some "Stream connection failed", isStreaming := false }

/-- Process a finite event sequence from the freshly-reset state. -/
def runSSE (parseGraph : String → Option GraphData) (events : List SSEEvent) : SSEState :=
  events.foldl (sseStep parseGraph) initialSSEState

/-- The payloads of the `story_chunk` events, in arrival order. -/
def storyChunkPayloads (events : List SSEEvent) : List String :=
  events.filterMap fun e =>
    match e with
    | .storyChunk d => some d
    | _ => none

/-- The fold of string append over a payload list, starting from `""`. -/
def concatChunks (l : List String) : String :=
  l.foldl (fun a b => a ++ b) ""

theorem concatChunks_foldl (l : List String) (a : String) :
    l.foldl (fun x y => x ++ y) a = a ++ concatChunks l := by
  induction l generalizing a with
  | nil => simp [concatChunks, String.append_empty]
  | cons d rest ih =>
    simp only [List.foldl_cons]
    rw [ih]
    simp only [concatChunks, List.foldl_cons]
    rw [ih ("" ++ d), String.empty_append, String.append_assoc]
    rfl

theorem concatChunks_cons (d : String) (rest : List String) :
    concatChunks (d :: rest) = d ++ concatChunks rest := by
  simp only [concatChunks, List.foldl_cons]
  rw [concatChunks_foldl, String.empty_append]
  rfl

theorem sseStep_graph_streamingText (parseGraph : String → Option GraphData)
    (s : SSEState) (d : String) :
    (sseStep parseGraph s (SSEEvent.graphPayload d)).streamingText = s.streamingText := by
  cases hpd : parseGraph d <;> simp [sseStep, hpd]

theorem runSSE_foldl (parseGraph : String → Option GraphData) (events : List SSEEvent)
    (s : SSEState) :
    (events.foldl (sseStep parseGraph) s).streamingText
      = s.streamingText ++ concatChunks (storyChunkPayloads events) := by
  induction events generalizing s with
  | nil => simp [storyChunkPayloads, concatChunks, String.append_empty]
  | cons e rest ih =>
    rw [List.foldl_cons, ih]
    cases e with
    | storyChunk d =>
      have hp : storyChunkPayloads (SSEEvent.storyChunk d :: rest)
          = d :: storyChunkPayloads rest := by
        simp [storyChunkPayloads]
      rw [hp, concatChunks_cons, ← String.append_assoc]
      have hs : (sseStep parseGraph s (SSEEvent.storyChunk d)).streamingText
          = s.streamingText ++ d := by
        simp [sseStep]
      rw [hs]
    | graphPayload d =>
      have hp : storyChunkPayloads (SSEEvent.graphPayload d :: rest)
          = storyChunkPayloads rest := by
        simp [storyChunkPayloads]
      rw [hp, sseStep_graph_streamingText]
    | streamEnd =>
      have hp : storyChunkPayloads (SSEEvent.streamEnd :: rest)
          = storyChunkPayloads rest := by
        simp [storyChunkPayloads]
      rw [hp]
      have hs : (sseStep parseGraph s SSEEvent.streamEnd).streamingText
          = s.streamingText := by
        simp [sseStep]
      rw [hs]
    | streamFailure =>
      have hp : storyChunkPayloads (SSEEvent.streamFailure :: rest)
          = storyChunkPayloads rest := by
        simp [storyChunkPayloads]
      rw [hp]
      have hs : (sseStep parseGraph s SSEEvent.streamFailure).streamingText
          = s.streamingText := by
        simp [sseStep]
      rw [hs]

/-! ### Claim theorems for Part A -/

/-- C7: the corpus-selection dropdown offers exactly the corpuses whose
`is_active` field is true — an entry is among the dropdown items iff it is
in the backend's list and active, so every inactive corpus is filtered out
before display and can never be selected. -/
theorem c7_corpus_dropdown_offers_exactly_active (data : List CorpusInfo) (c : CorpusInfo) :
    c ∈ corpusDropdownItems data ↔ c ∈ data ∧ c.is_active = true := by
  simp [corpusDropdownItems, List.mem_filter]

/-- C8 counterexample: with the empty items list, the starting index `-1`
lies in the claimed range `[-1, items.length - 1] = [-1, -1]`, but the
ArrowUp step moves it to `0`, outside that range — so the range is not
preserved by every keyboard step for every items list. -/
theorem c8_range_counterexample :
    hlRange [] (-1) ∧ arrowUp (-1) = 0 ∧ ¬ hlRange [] (arrowUp (-1)) := by
  refine ⟨by decide, by decide, by decide⟩

/-- C8 (amended): from any highlightedIndex in `[-1, items.length - 1]`,
ArrowDown preserves that range; ArrowUp lands in `[0, max (length - 1) 0]`
— preserving the range whenever the list is non-empty, while for the empty
list it may set the index to `0`, one past `length - 1`; Enter invokes
`onSelect` only when `0 ≤ highlightedIndex < items.length`, and any item it
selects belongs to the list, so selection of an out-of-bounds item remains
impossible for every items list, including the empty list. -/
theorem c8_keyboard_navigation_bounds (items : List Nat) (hi : Int) (h : hlRange items hi) :
    hlRange items (arrowDown items hi) ∧
    0 ≤ arrowUp hi ∧
    arrowUp hi ≤ max ((items.length : Int) - 1) 0 ∧
    (items ≠ [] → hlRange items (arrowUp hi)) ∧
    (enterFires items hi = true → 0 ≤ hi ∧ hi < (items.length : Int)) ∧
    (enterSelect items hi).all (fun x => items.contains x) = true := by
  obtain ⟨h1, h2⟩ := h
  refine ⟨?_, ?_, ?_, ?_, ?_, ?_⟩
  · unfold hlRange arrowDown
    split <;> constructor <;> omega
  · unfold arrowUp
    split <;> omega
  · rw [le_max_iff]
    unfold arrowUp
    split
    · left; omega
    · right; omega
  · intro hne
    have hpos : 0 < items.length := List.length_pos.mpr hne
    unfold hlRange arrowUp
    split <;> constructor <;> omega
  · intro hf
    simp only [enterFires, Bool.and_eq_true, decide_eq_true_eq] at hf
    exact hf
  · unfold enterSelect
    split
    · cases hg : items[hi.toNat]? with
      | none => simp [Option.all]
      | some x =>
        have hx : x ∈ items := by
          rw [List.getElem?_eq_some] at hg
          obtain ⟨hlt, hEq⟩ := hg
          rw [← hEq]
          exact List.getElem_mem hlt
        simp [Option.all, hx]
    · simp [Option.all]

/-- C9: `buildURL` appends every entry of `params` to the query pair list
as `key = String(value)`, omitting none; consequently `buildStreamStoryURL`
serializes boolean fields even when false — a params object carrying
`randomize_retrieval: false` yields a URL whose query contains the pair
`randomize_retrieval=false` rather than dropping it. -/
theorem c9_buildurl_serializes_every_param (endpoint : String)
    (params : List (String × QueryValue)) (p : StreamStoryParams)
    (hfalse : p.randomize_retrieval = some false) :
    (buildURL endpoint params).queryPairs
      = params.map (fun kv => (kv.1, valueToString kv.2)) ∧
    (buildURL endpoint params).queryPairs.length = params.length ∧
    (∀ kv, kv ∈ params → (kv.1, valueToString kv.2) ∈ (buildURL endpoint params).queryPairs) ∧
    ("randomize_retrieval", "false") ∈ (buildStreamStoryURL p).queryPairs := by
  have hq : (buildURL endpoint params).queryPairs
      = params.map (fun kv => (kv.1, valueToString kv.2)) := by
    unfold buildURL
    rw [buildURL_foldl_queryPairs]
    simp
  refine ⟨hq, ?_, ?_, ?_⟩
  · rw [hq]; simp
  · intro kv hkv
    rw [hq]
    exact List.mem_map.mpr ⟨kv, hkv, rfl⟩
  · unfold buildStreamStoryURL buildURL
    rw [buildURL_foldl_queryPairs]
    have hmem : ("randomize_retrieval", QueryValue.boolean false) ∈ streamStoryEntries p := by
      simp [streamStoryEntries, optEntry, hfalse]
    refine List.mem_append.mpr (Or.inr ?_)
    exact List.mem_map.mpr ⟨("randomize_retrieval", QueryValue.boolean false), hmem, rfl⟩

/-- C9 witness: the theorem applied at a concrete endpoint, params list and
stream-story params object with `randomize_retrieval = false`. -/
theorem c9_buildurl_serializes_every_param_witness :
    (StreamStoryParams.mk "a tale" none none none none (some false) none none).randomize_retrieval
        = some false ∧
    (("randomize_retrieval", "false")
      ∈ (buildStreamStoryURL
          (StreamStoryParams.mk "a tale" none none none none (some false) none none)).queryPairs) :=
  ⟨rfl,
    (c9_buildurl_serializes_every_param "/api/stream_story" []
      (StreamStoryParams.mk "a tale" none none none none (some false) none none) rfl).2.2.2⟩

/-- C10: after any finite sequence of SSE events, `streamingText` equals
the fold of string append over the `story_chunk` payloads in arrival order
starting from the empty string, and a `graph_data` event never modifies
`streamingText`. -/
theorem c10_sse_streaming_text_fold (parseGraph : String → Option GraphData)
    (events : List SSEEvent) (s : SSEState) (d : String) :
    (runSSE parseGraph events).streamingText = concatChunks (storyChunkPayloads events) ∧
    (sseStep parseGraph s (SSEEvent.graphPayload d)).streamingText = s.streamingText := by
  constructor
  · unfold runSSE
    rw [runSSE_foldl]
    simp [initialSSEState, String.empty_append]
  · exact sseStep_graph_streamingText parseGraph s d

/-! ### Part B.1: Reciprocal Rank Fusion (spec §4.3 steps 4-6)

The hybrid retriever's code is not among the repository sources; the
definitions below are modelled from the specification. -/

/-- Modelled from the spec: the fixed RRF smoothing constant `k`
("commonly 60"); the retriever code holding it is missing from the
sources. -/
def rrfK : ℚ := 60

/-- Modelled from the spec: the 1-based rank of a chunk id in a ranked
candidate list (`none` when absent); part of the missing hybrid
retriever. -/
def rank1 : List Nat → Nat → Option Nat
  | [], _ => none
  | x :: rest, c => if x = c then some 1 else (rank1 rest c).map (· + 1)

/-- Modelled from the spec: the RRF contribution of one ranked list to a
chunk's fused score — `1 / (rank_in_list + k)` when the chunk is in the
list, `0` otherwise. -/
def contrib (l : List Nat) (c : Nat) : ℚ :=
  match rank1 l c with
  | some r => 1 / ((r : ℚ) + rrfK)
  | none => 0

/-- Modelled from the spec: a fused retrieval candidate — chunk id, fused
score, and the constituent vector/keyword ranks (absent when the chunk was
not in that list); the ephemeral `RetrievalResult` record. -/
structure Candidate where
  cid : Nat
  score : ℚ
  vecRank : Option Nat
  kwRank : Option Nat
deriving Repr, DecidableEq

/-- Modelled from the spec: the candidate entries created from the vector
list, the entry at 0-based offset `i` receiving 1-based rank `i + 1` and
score `1 / (rank + k)`. -/
def vecCands : List Nat → Nat → List Candidate
  | [], _ => []
  | c :: rest, i => Candidate.mk c (1 / (((i + 1 : Nat) : ℚ) + rrfK)) (some (i + 1)) none
      :: vecCands rest (i + 1)

/-- Modelled from the spec: folding one keyword-list member of rank `r`
into the accumulated candidates — a chunk already present accumulates the
keyword term onto its score, a new chunk is appended with the keyword term
alone. -/
def addKw (acc : List Candidate) (c : Nat) (r : Nat) : List Candidate :=
  if acc.any (fun cd => cd.cid == c) then
    acc.map (fun cd =>
      if cd.cid == c then
        Candidate.mk cd.cid (cd.score + 1 / (((r : Nat) : ℚ) + rrfK)) cd.vecRank (some r)
      else cd)
  else acc ++ [Candidate.mk c (1 / (((r : Nat) : ℚ) + rrfK)) none (some r)]

/-- Modelled from the spec: fold the whole keyword list into the
accumulated candidates, the entry at 0-based offset `i` having 1-based
rank `i + 1`. -/
def addKwAll : List Candidate → List Nat → Nat → List Candidate
  | acc, [], _ => acc
  | acc, c :: rest, i => addKwAll (addKw acc c (i + 1)) rest (i + 1)

/-- Modelled from the spec: the fused candidate set built from the two
ranked id lists returned by the vector index and the keyword index. -/
def fuseCandidates (vec kw : List Nat) : List Candidate :=
  addKwAll (vecCands vec 0) kw 0

/-- First candidate carrying the given chunk id. -/
def findCand (cands : List Candidate) (c : Nat) : Option Candidate :=
  cands.find? (fun cd => cd.cid == c)

/-- The fused score the retriever assigns to a chunk id (0 when the chunk
is not a candidate). -/
def scoreOf (cands : List Candidate) (c : Nat) : ℚ :=
  match findCand cands c with
  | some cd => cd.score
  | none => 0

theorem rank1_eq_none_iff (l : List Nat) (c : Nat) : rank1 l c = none ↔ c ∉ l := by
  induction l with
  | nil => simp [rank1]
  | cons x rest ih =>
    simp only [rank1, List.mem_cons]
    by_cases hx : x = c
    · simp [hx]
    · rw [if_neg hx]
      have hmap : (rank1 rest c).map (· + 1) = none ↔ rank1 rest c = none := by
        cases rank1 rest c <;> simp
      rw [hmap, ih]
      simp [not_or, Ne.symm hx]

theorem findCand_cons_self (cd : Candidate) (l : List Candidate) (c : Nat)
    (h : (cd.cid == c) = true) : findCand (cd :: l) c = some cd := by
  unfold findCand
  rw [List.find?_cons]
  simp only [h]

theorem findCand_cons_ne (cd : Candidate) (l : List Candidate) (c : Nat)
    (h : (cd.cid == c) = false) : findCand (cd :: l) c = findCand l c := by
  unfold findCand
  rw [List.find?_cons]
  simp only [h]

theorem findCand_vecCands_of_not_mem (vec : List Nat) (i : Nat) (c : Nat) (hc : c ∉ vec) :
    findCand (vecCands vec i) c = none := by
  induction vec generalizing i with
  | nil => rfl
  | cons x rest ih =>
    simp only [List.mem_cons, not_or] at hc
    simp only [vecCands]
    rw [findCand_cons_ne _ _ _ (by simpa using fun h => hc.1 h.symm)]
    exact ih (i + 1) hc.2

theorem findCand_vecCands_of_rank (vec : List Nat) (i : Nat) (c : Nat) (r : Nat)
    (hr : rank1 vec c = some r) :
    findCand (vecCands vec i) c
      = some (Candidate.mk c (1 / (((i + r : Nat) : ℚ) + rrfK)) (some (i + r)) none) := by
  induction vec generalizing i r with
  | nil => simp [rank1] at hr
  | cons x rest ih =>
    simp only [rank1] at hr
    by_cases hx : x = c
    · rw [if_pos hx] at hr
      obtain rfl : r = 1 := by simpa using hr.symm
      subst hx
      simp only [vecCands]
      rw [findCand_cons_self _ _ _ (by simp)]
    · rw [if_neg hx] at hr
      cases h : rank1 rest c with
      | none => rw [h] at hr; simp at hr
      | some r0 =>
        rw [h] at hr
        simp only [Option.map_some', Option.some.injEq] at hr
        simp only [vecCands]
        rw [findCand_cons_ne _ _ _ (by simpa using hx)]
        have hrec := ih (i + 1) r0 h
        rw [show i + 1 + r0 = i + r by omega] at hrec
        exact hrec

theorem findCand_map_cid_preserving (f : Candidate → Candidate)
    (hf : ∀ cd, (f cd).cid = cd.cid) (l : List Candidate) (c : Nat) :
    findCand (l.map f) c = (findCand l c).map f := by
  induction l with
  | nil => rfl
  | cons cd rest ih =>
    simp only [List.map_cons]
    by_cases h : (cd.cid == c) = true
    · rw [findCand_cons_self (f cd) _ _ (by rw [hf cd]; exact h), findCand_cons_self cd _ _ h]
      rfl
    · have h2 : (cd.cid == c) = false := by simpa using h
      rw [findCand_cons_ne (f cd) _ _ (by rw [hf cd]; exact h2), findCand_cons_ne cd _ _ h2]
      exact ih

theorem findCand_append_of_none (acc extra : List Candidate) (c : Nat)
    (h : findCand acc c = none) :
    findCand (acc ++ extra) c = findCand extra c := by
  induction acc with
  | nil => simp [findCand]
  | cons cd0 rest ih =>
    rw [List.cons_append]
    by_cases hc : (cd0.cid == c) = true
    · rw [findCand_cons_self cd0 rest c hc] at h
      exact absurd h (by simp)
    · have hc2 : (cd0.cid == c) = false := by simpa using hc
      rw [findCand_cons_ne cd0 rest c hc2] at h
      rw [findCand_cons_ne cd0 (rest ++ extra) c hc2]
      exact ih h

theorem findCand_append_of_some (acc extra : List Candidate) (c : Nat) (cd : Candidate)
    (h : findCand acc c = some cd) :
    findCand (acc ++ extra) c = some cd := by
  induction acc with
  | nil => simp [findCand] at h
  | cons cd0 rest ih =>
    rw [List.cons_append]
    by_cases hc : (cd0.cid == c) = true
    · rw [findCand_cons_self cd0 rest c hc] at h
      rw [findCand_cons_self cd0 (rest ++ extra) c hc]
      exact h
    · have hc2 : (cd0.cid == c) = false := by simpa using hc
      rw [findCand_cons_ne cd0 rest c hc2] at h
      rw [findCand_cons_ne cd0 (rest ++ extra) c hc2]
      exact ih h

theorem findCand_cid_eq (acc : List Candidate) (c : Nat) (cd : Candidate)
    (h : findCand acc c = some cd) : (cd.cid == c) = true := by
  induction acc with
  | nil => simp [findCand] at h
  | cons cd0 rest ih =>
    by_cases hc : (cd0.cid == c) = true
    · rw [findCand_cons_self cd0 rest c hc] at h
      injection h with hh
      subst hh
      exact hc
    · have hc2 : (cd0.cid == c) = false := by simpa using hc
      rw [findCand_cons_ne cd0 rest c hc2] at h
      exact ih h

theorem findCand_any_true (acc : List Candidate) (c : Nat) (cd : Candidate)
    (h : findCand acc c = some cd) :
    acc.any (fun cd => cd.cid == c) = true := by
  rw [List.any_eq_true]
  refine ⟨cd, List.mem_of_find?_eq_some h, ?_⟩
  simpa using findCand_cid_eq acc c cd h

theorem findCand_any_false (acc : List Candidate) (c : Nat)
    (h : findCand acc c = none) :
    acc.any (fun cd => cd.cid == c) = false := by
  induction acc with
  | nil => rfl
  | cons cd0 rest ih =>
    by_cases hc : (cd0.cid == c) = true
    · rw [findCand_cons_self cd0 rest c hc] at h
      exact absurd h (by simp)
    · have hc2 : (cd0.cid == c) = false := by simpa using hc
      rw [findCand_cons_ne cd0 rest c hc2] at h
      simp only [List.any_cons, hc2, Bool.false_or]
      exact ih h

theorem addKw_update_cid (c : Nat) (r : Nat) (cd : Candidate) :
    ((fun cd =>
      if cd.cid == c then
        Candidate.mk cd.cid (cd.score + 1 / (((r : Nat) : ℚ) + rrfK)) cd.vecRank (some r)
      else cd) cd).cid = cd.cid := by
  by_cases hcd : (cd.cid == c) = true
  · simp [hcd]
  · simp [hcd]

theorem findCand_addKw_ne (acc : List Candidate) (c d : Nat) (r : Nat) (hne : d ≠ c) :
    findCand (addKw acc c r) d = findCand acc d := by
  unfold addKw
  by_cases hany : acc.any (fun cd => cd.cid == c) = true
  · rw [if_pos hany]
    rw [findCand_map_cid_preserving _ (addKw_update_cid c r) acc d]
    cases h : findCand acc d with
    | none => simp
    | some cd =>
      have hcd0 := List.find?_some h
      simp only [beq_iff_eq] at hcd0
      have hnc : ¬ (cd.cid == c) = true := by
        simp only [beq_iff_eq]
        rw [hcd0]
        exact hne
      simp only [Option.map_some']
      simp [hnc]
  · rw [if_neg hany]
    cases h : findCand acc d with
    | none =>
      rw [findCand_append_of_none acc _ d h]
      rw [findCand_cons_ne _ _ _ (by simpa using fun hh => hne hh.symm)]
      rfl
    | some cd => exact findCand_append_of_some acc _ d cd h

theorem findCand_addKw_self_some (acc : List Candidate) (c : Nat) (r : Nat) (cd : Candidate)
    (h : findCand acc c = some cd) :
    findCand (addKw acc c r) c
      = some (Candidate.mk cd.cid (cd.score + 1 / (((r : Nat) : ℚ) + rrfK)) cd.vecRank (some r)) := by
  unfold addKw
  rw [if_pos (findCand_any_true acc c cd h)]
  rw [findCand_map_cid_preserving _ (addKw_update_cid c r) acc c, h]
  have hcd0 := List.find?_some h
  simp only [beq_iff_eq] at hcd0
  simp [hcd0]

theorem findCand_addKw_self_none (acc : List Candidate) (c : Nat) (r : Nat)
    (h : findCand acc c = none) :
    findCand (addKw acc c r) c
      = some (Candidate.mk c (1 / (((r : Nat) : ℚ) + rrfK)) none (some r)) := by
  unfold addKw
  rw [if_neg (by simp [findCand_any_false acc c h])]
  rw [findCand_append_of_none acc _ c h]
  rw [findCand_cons_self _ _ _ (by simp)]

theorem findCand_addKwAll_of_not_mem (acc : List Candidate) (kw : List Nat) (i : Nat)
    (c : Nat) (hc : c ∉ kw) :
    findCand (addKwAll acc kw i) c = findCand acc c := by
  induction kw generalizing acc i with
  | nil => simp [addKwAll]
  | cons x rest ih =>
    simp only [List.mem_cons, not_or] at hc
    simp only [addKwAll]
    rw [ih _ _ hc.2, findCand_addKw_ne _ _ _ _ hc.1]

theorem findCand_addKwAll_of_rank (acc : List Candidate) (kw : List Nat) (i : Nat)
    (c : Nat) (r : Nat) (hnd : kw.Nodup) (hr : rank1 kw c = some r) :
    findCand (addKwAll acc kw i) c
      = match findCand acc c with
        | some cd => some (Candidate.mk cd.cid (cd.score + 1 / (((i + r : Nat) : ℚ) + rrfK))
            cd.vecRank (some (i + r)))
        | none => some (Candidate.mk c (1 / (((i + r : Nat) : ℚ) + rrfK)) none (some (i + r))) := by
  induction kw generalizing acc i r with
  | nil => simp [rank1] at hr
  | cons x rest ih =>
    simp only [rank1] at hr
    rw [List.nodup_cons] at hnd
    by_cases hx : x = c
    · rw [if_pos hx] at hr
      obtain rfl : r = 1 := by simpa using hr.symm
      subst hx
      simp only [addKwAll]
      rw [findCand_addKwAll_of_not_mem _ _ _ _ hnd.1]
      cases h : findCand acc x with
      | none => rw [findCand_addKw_self_none acc x (i + 1) h]
      | some cd => rw [findCand_addKw_self_some acc x (i + 1) cd h]
    · rw [if_neg hx] at hr
      cases h : rank1 rest c with
      | none => rw [h] at hr; simp at hr
      | some r0 =>
        rw [h] at hr
        simp only [Option.map_some', Option.some.injEq] at hr
        simp only [addKwAll]
        rw [ih _ _ _ hnd.2 h]
        rw [findCand_addKw_ne _ _ _ _ (Ne.symm hx)]
        have harith : i + 1 + r0 = i + r := by omega
        rw [harith]

theorem findCand_addKwAll_of_rank_some (acc : List Candidate) (kw : List Nat) (i : Nat)
    (c : Nat) (r : Nat) (cd : Candidate) (hnd : kw.Nodup) (hr : rank1 kw c = some r)
    (hacc : findCand acc c = some cd) :
    findCand (addKwAll acc kw i) c
      = some (Candidate.mk cd.cid (cd.score + 1 / (((i + r : Nat) : ℚ) + rrfK))
          cd.vecRank (some (i + r))) := by
  have h2 := findCand_addKwAll_of_rank acc kw i c r hnd hr
  rw [hacc] at h2
  exact h2

theorem findCand_addKwAll_of_rank_none (acc : List Candidate) (kw : List Nat) (i : Nat)
    (c : Nat) (r : Nat) (hnd : kw.Nodup) (hr : rank1 kw c = some r)
    (hacc : findCand acc c = none) :
    findCand (addKwAll acc kw i) c
      = some (Candidate.mk c (1 / (((i + r : Nat) : ℚ) + rrfK)) none (some (i + r))) := by
  have h2 := findCand_addKwAll_of_rank acc kw i c r hnd hr
  rw [hacc] at h2
  exact h2

theorem rank1_isSome_of_mem (l : List Nat) (c : Nat) (hc : c ∈ l) :
    ∃ r, rank1 l c = some r := by
  cases hr : rank1 l c with
  | none =>
    rw [rank1_eq_none_iff] at hr
    exact absurd hc hr
  | some r => exact ⟨r, rfl⟩

theorem scoreOf_fuse_both (vec kw : List Nat) (hk : kw.Nodup) (c rv rk : Nat)
    (hrv : rank1 vec c = some rv) (hrk : rank1 kw c = some rk) :
    scoreOf (fuseCandidates vec kw) c
      = 1 / ((rv : ℚ) + rrfK) + 1 / ((rk : ℚ) + rrfK) := by
  have hfv := findCand_vecCands_of_rank vec 0 c rv hrv
  rw [Nat.zero_add] at hfv
  have h2 := findCand_addKwAll_of_rank_some (vecCands vec 0) kw 0 c rk _ hk hrk hfv
  rw [Nat.zero_add] at h2
  unfold scoreOf fuseCandidates
  rw [h2]

theorem scoreOf_fuse_vec_only (vec kw : List Nat) (c rv : Nat)
    (hrv : rank1 vec c = some rv) (hck : c ∉ kw) :
    scoreOf (fuseCandidates vec kw) c = 1 / ((rv : ℚ) + rrfK) := by
  have hfv := findCand_vecCands_of_rank vec 0 c rv hrv
  rw [Nat.zero_add] at hfv
  unfold scoreOf fuseCandidates
  rw [findCand_addKwAll_of_not_mem _ _ _ _ hck, hfv]

theorem scoreOf_fuse_kw_only (vec kw : List Nat) (hk : kw.Nodup) (c rk : Nat)
    (hcv : c ∉ vec) (hrk : rank1 kw c = some rk) :
    scoreOf (fuseCandidates vec kw) c = 1 / ((rk : ℚ) + rrfK) := by
  have hfv := findCand_vecCands_of_not_mem vec 0 c hcv
  have h2 := findCand_addKwAll_of_rank_none (vecCands vec 0) kw 0 c rk hk hrk hfv
  rw [Nat.zero_add] at h2
  unfold scoreOf fuseCandidates
  rw [h2]

/-! ### Part B.2: fused ranking order, sorting and truncation (spec §4.3 steps 5-6) -/

/-- Modelled from the spec: whether a candidate is present in both ranked
lists. -/
def bothLists (cd : Candidate) : Bool :=
  cd.vecRank.isSome && cd.kwRank.isSome

/-- Modelled from the spec: the tie class — presence in both lists ranks
above presence in only one. -/
def tieClass (cd : Candidate) : Nat :=
  if bothLists cd then 0 else 1

/-- Modelled from the spec: the retriever's ranking order — fused score
descending, ties broken first by presence in both lists, then by insertion
order (chunk ids are issued in insertion order in this model). -/
def CandLE (a b : Candidate) : Prop :=
  b.score < a.score ∨
    (a.score = b.score ∧
      (tieClass a < tieClass b ∨ (tieClass a = tieClass b ∧ a.cid ≤ b.cid)))

instance : DecidableRel CandLE := fun a b => by
  unfold CandLE
  infer_instance

instance : IsTotal Candidate CandLE where
  total a b := by
    unfold CandLE
    rcases lt_trichotomy a.score b.score with h | h | h
    · exact Or.inr (Or.inl h)
    · rcases Nat.lt_trichotomy (tieClass a) (tieClass b) with h2 | h2 | h2
      · exact Or.inl (Or.inr ⟨h, Or.inl h2⟩)
      · rcases Nat.le_total a.cid b.cid with h3 | h3
        · exact Or.inl (Or.inr ⟨h, Or.inr ⟨h2, h3⟩⟩)
        · exact Or.inr (Or.inr ⟨h.symm, Or.inr ⟨h2.symm, h3⟩⟩)
      · exact Or.inr (Or.inr ⟨h.symm, Or.inl h2⟩)
    · exact Or.inl (Or.inl h)

instance : IsTrans Candidate CandLE where
  trans a b c hab hbc := by
    unfold CandLE at hab hbc ⊢
    rcases hab with h1 | ⟨h1, h1t⟩
    · rcases hbc with h2 | ⟨h2, h2t⟩
      · exact Or.inl (lt_trans h2 h1)
      · exact Or.inl (lt_of_eq_of_lt h2.symm h1)
    · rcases hbc with h2 | ⟨h2, h2t⟩
      · exact Or.inl (lt_of_lt_of_eq h2 h1.symm)
      · refine Or.inr ⟨h1.trans h2, ?_⟩
        rcases h1t with ht | ⟨ht, hcid⟩
        · rcases h2t with ht2 | ⟨ht2, hcid2⟩
          · exact Or.inl (by omega)
          · exact Or.inl (by omega)
        · rcases h2t with ht2 | ⟨ht2, hcid2⟩
          · exact Or.inl (by omega)
          · exact Or.inr ⟨by omega, le_trans hcid hcid2⟩

/-- Modelled from the spec: step 5 — sort the fused candidates by the
ranking order (insertion sort, a stable deterministic sort). -/
def sortCands (l : List Candidate) : List Candidate :=
  List.insertionSort CandLE l

/-- Modelled from the spec: steps 4-6 of the missing hybrid retriever —
fuse the two ranked lists, sort by the ranking order, truncate to
`top_k`. -/
def retrieveTop (vec kw : List Nat) (topk : Nat) : List Candidate :=
  (sortCands (fuseCandidates vec kw)).take topk

theorem findCand_fuse_ranks (vec kw : List Nat) (hk : kw.Nodup) (c : Nat) (cd : Candidate)
    (hfind : findCand (fuseCandidates vec kw) c = some cd) :
    cd.vecRank = rank1 vec c ∧ cd.kwRank = rank1 kw c := by
  by_cases hcv : c ∈ vec <;> by_cases hck : c ∈ kw
  · obtain ⟨rv, hrv⟩ := rank1_isSome_of_mem vec c hcv
    obtain ⟨rk, hrk⟩ := rank1_isSome_of_mem kw c hck
    have hfv := findCand_vecCands_of_rank vec 0 c rv hrv
    rw [Nat.zero_add] at hfv
    have h2 := findCand_addKwAll_of_rank_some (vecCands vec 0) kw 0 c rk _ hk hrk hfv
    rw [Nat.zero_add] at h2
    unfold fuseCandidates at hfind
    rw [h2] at hfind
    injection hfind with hcd
    subst hcd
    constructor
    · rw [hrv]
    · rw [hrk]
  · obtain ⟨rv, hrv⟩ := rank1_isSome_of_mem vec c hcv
    have hfv := findCand_vecCands_of_rank vec 0 c rv hrv
    rw [Nat.zero_add] at hfv
    unfold fuseCandidates at hfind
    rw [findCand_addKwAll_of_not_mem _ _ _ _ hck, hfv] at hfind
    injection hfind with hcd
    subst hcd
    constructor
    · rw [hrv]
    · rw [(rank1_eq_none_iff kw c).mpr hck]
  · obtain ⟨rk, hrk⟩ := rank1_isSome_of_mem kw c hck
    have hfv := findCand_vecCands_of_not_mem vec 0 c hcv
    have h2 := findCand_addKwAll_of_rank_none (vecCands vec 0) kw 0 c rk hk hrk hfv
    rw [Nat.zero_add] at h2
    unfold fuseCandidates at hfind
    rw [h2] at hfind
    injection hfind with hcd
    subst hcd
    constructor
    · rw [(rank1_eq_none_iff vec c).mpr hcv]
    · rw [hrk]
  · have hfv := findCand_vecCands_of_not_mem vec 0 c hcv
    unfold fuseCandidates at hfind
    rw [findCand_addKwAll_of_not_mem _ _ _ _ hck, hfv] at hfind
    exact absurd hfind (by simp)

/-- C1: for every pair of ranked chunk-id candidate lists and the smoothing
constant k = 60, the fused score of each chunk id appearing in either list
equals the sum, over the lists containing it, of `1 / (rank_in_list + 60)`
with 1-based ranks; a chunk absent from a list contributes 0 for that list
and a chunk in both lists accumulates both terms. -/
theorem c1_rrf_fused_score (vec kw : List Nat) (_hv : vec.Nodup) (hk : kw.Nodup)
    (c : Nat) (hc : c ∈ vec ∨ c ∈ kw) :
    rrfK = 60 ∧ scoreOf (fuseCandidates vec kw) c = contrib vec c + contrib kw c := by
  refine ⟨rfl, ?_⟩
  by_cases hcv : c ∈ vec <;> by_cases hck : c ∈ kw
  · obtain ⟨rv, hrv⟩ := rank1_isSome_of_mem vec c hcv
    obtain ⟨rk, hrk⟩ := rank1_isSome_of_mem kw c hck
    rw [scoreOf_fuse_both vec kw hk c rv rk hrv hrk]
    unfold contrib
    rw [hrv, hrk]
  · obtain ⟨rv, hrv⟩ := rank1_isSome_of_mem vec c hcv
    rw [scoreOf_fuse_vec_only vec kw c rv hrv hck]
    unfold contrib
    rw [hrv, (rank1_eq_none_iff kw c).mpr hck]
    simp
  · obtain ⟨rk, hrk⟩ := rank1_isSome_of_mem kw c hck
    rw [scoreOf_fuse_kw_only vec kw hk c rk hcv hrk]
    unfold contrib
    rw [hrk, (rank1_eq_none_iff vec c).mpr hcv]
    simp
  · rcases hc with h | h
    · exact absurd h hcv
    · exact absurd h hck

/-- C1 witness: the theorem applied at the spec's own example — vector list
`[c1, c2, c3]`, keyword list `[c3, c1, c4]`, chunk `c1` — with the chunk
ids written as numbers. -/
theorem c1_rrf_fused_score_witness :
    ([1, 2, 3] : List Nat).Nodup ∧ ([3, 1, 4] : List Nat).Nodup ∧
    ((1 : Nat) ∈ [1, 2, 3] ∨ (1 : Nat) ∈ [3, 1, 4]) ∧
    (rrfK = 60 ∧
      scoreOf (fuseCandidates [1, 2, 3] [3, 1, 4]) 1 = contrib [1, 2, 3] 1 + contrib [3, 1, 4] 1) :=
  ⟨by decide, by decide, by decide,
    c1_rrf_fused_score [1, 2, 3] [3, 1, 4] (by decide) (by decide) 1 (by decide)⟩

/-- C2: the retriever's returned sequence is sorted by fused score
descending with ties broken first by presence in both lists and then by
insertion order, is a truncation to `top_k` of the sorted fused candidates,
carries the constituent vector and keyword ranks of every candidate
(absent when the chunk was not in that list), and on vector list `[c2, c1]`
and keyword list `[c1, c3]` with `top_k = 2` returns `[c1, c2]`, excluding
`c3`. -/
theorem c2_retrieve_sorted_truncated (vec kw : List Nat) (topk : Nat)
    (_hv : vec.Nodup) (hk : kw.Nodup) :
    List.Sorted CandLE (retrieveTop vec kw topk) ∧
    (retrieveTop vec kw topk).length ≤ topk ∧
    (sortCands (fuseCandidates vec kw)).Perm (fuseCandidates vec kw) ∧
    (∀ c cd, findCand (fuseCandidates vec kw) c = some cd →
      cd.vecRank = rank1 vec c ∧ cd.kwRank = rank1 kw c) ∧
    (retrieveTop [2, 1] [1, 3] 2).map Candidate.cid = [1, 2] ∧
    (3 : Nat) ∉ (retrieveTop [2, 1] [1, 3] 2).map Candidate.cid := by
  refine ⟨?_, ?_, ?_, ?_, ?_, ?_⟩
  · unfold retrieveTop sortCands
    exact List.Pairwise.sublist (List.take_sublist _ _) (List.sorted_insertionSort CandLE _)
  · unfold retrieveTop
    rw [List.length_take]
    exact min_le_left _ _
  · exact List.perm_insertionSort CandLE _
  · intro c cd hfind
    exact findCand_fuse_ranks vec kw hk c cd hfind
  · norm_num [retrieveTop, sortCands, fuseCandidates, vecCands, addKwAll, addKw, findCand,
      List.insertionSort, List.orderedInsert, CandLE, tieClass, bothLists, rrfK]
  · norm_num [retrieveTop, sortCands, fuseCandidates, vecCands, addKwAll, addKw, findCand,
      List.insertionSort, List.orderedInsert, CandLE, tieClass, bothLists, rrfK]

/-- C2 witness: the theorem applied at the spec's end-to-end example —
vector list `[c2, c1]`, keyword list `[c1, c3]`, `top_k = 2` — with its
Nodup hypotheses discharged by evaluation; the returned id sequence is
`[c1, c2]`. -/
theorem c2_retrieve_sorted_truncated_witness :
    ([2, 1] : List Nat).Nodup ∧ ([1, 3] : List Nat).Nodup ∧
    (retrieveTop [2, 1] [1, 3] 2).map Candidate.cid = [1, 2] :=
  ⟨by decide, by decide,
    (c2_retrieve_sorted_truncated [2, 1] [1, 3] 2 (by decide) (by decide)).2.2.2.2.1⟩

/-- C8 witness: the amended theorem applied at the concrete list `[5, 7]`
and index `0`, its range hypothesis discharged by evaluation. -/
theorem c8_keyboard_navigation_bounds_witness :
    hlRange [5, 7] 0 ∧
    (hlRange [5, 7] (arrowDown [5, 7] 0) ∧
      0 ≤ arrowUp 0 ∧
      arrowUp 0 ≤ max ((([5, 7] : List Nat).length : Int) - 1) 0 ∧
      (([5, 7] : List Nat) ≠ [] → hlRange [5, 7] (arrowUp 0)) ∧
      (enterFires [5, 7] 0 = true → 0 ≤ (0 : Int) ∧ (0 : Int) < (([5, 7] : List Nat).length : Int)) ∧
      (enterSelect [5, 7] 0).all (fun x => ([5, 7] : List Nat).contains x) = true) :=
  ⟨by decide, c8_keyboard_navigation_bounds [5, 7] 0 (by decide)⟩

/-! ### Part B.3: registry and the ingestion recovery state machine (spec §4.1-4.2)

The corpus registry and ingestion pipeline code is not among the repository
source files; these definitions are modelled from the specification. -/

/-- Modelled from the spec: the three independently persisted per-corpus
artifacts of the missing ingestion pipeline, each `none` when absent on
disk; an index stores the chunk ids it references. -/
structure CorpusArtifacts where
  chunks : Option (List Nat)
  vectorIndex : Option (List Nat)
  keywordIndex : Option (List Nat)
deriving Repr, DecidableEq

/-- Modelled from the spec: the `component_status` flags of
`compute_status`, derived freshly from the artifact store. -/
structure ComponentStatus where
  chunksPresent : Bool
  vectorPresent : Bool
  keywordPresent : Bool
deriving Repr, DecidableEq

/-- Modelled from the spec: `compute_status` inspects the three artifact
locations and returns fresh present/absent flags. -/
def compute_status (a : CorpusArtifacts) : ComponentStatus :=
  ComponentStatus.mk a.chunks.isSome a.vectorIndex.isSome a.keywordIndex.isSome

/-- Modelled from the spec: the names of the absent components. -/
def missingComponents (a : CorpusArtifacts) : List String :=
  (if a.chunks.isNone then ["chunks"] else [])
    ++ (if a.vectorIndex.isNone then ["vector_index"] else [])
    ++ (if a.keywordIndex.isNone then ["keyword_index"] else [])

/-- Modelled from the spec: a corpus is complete iff all three components
are present and consistent (ids referenced by each index are a subset of
the current chunk ids). -/
def completeB (a : CorpusArtifacts) : Bool :=
  match a.chunks, a.vectorIndex, a.keywordIndex with
  | some cs, some vi, some ki =>
    vi.all (fun c => cs.contains c) && ki.all (fun c => cs.contains c)
  | _, _, _ => false

/-- Modelled from the spec: the per-corpus outcome of an ingestion call of
the missing pipeline — success, or the `TransientIngestionError` raised by
embedding/vector-store I/O failures. -/
inductive IngestOutcome where
  | success
  | transientError
deriving Repr, DecidableEq

/-- Modelled from the spec: the `IngestionReport` — number of artifact
writes performed, whether the corpus is complete afterwards, and the
per-corpus outcome (`transientError` for embedding I/O failures). -/
structure IngestionReport where
  writes : Nat
  complete : Bool
  outcome : IngestOutcome
deriving Repr, DecidableEq

/-- Modelled from the spec: `ingest(corpus_name, force_rebuild)` of the
missing ingestion pipeline, executing the action classified by the §4.2
state table.  `embedOk` models whether the embedding-service calls
succeed, `src` the chunk ids the chunker yields from the corpus source.
With chunks present and no force, only the absent indexes are rebuilt from
the existing chunks (re-embedding only when the vector index is absent);
otherwise a full rebuild chunks the source, embeds and upserts all chunks,
then builds the keyword index.  An embedding failure leaves a partial
state and reports a transient error. -/
def ingest (embedOk : Bool) (src : List Nat) (a : CorpusArtifacts) (force : Bool) :
    CorpusArtifacts × IngestionReport :=
  match a.chunks, force with
  | some cs, false =>
    let needVec := a.vectorIndex.isNone
    let needKw := a.keywordIndex.isNone
    if needVec && !embedOk then
      (a, IngestionReport.mk 0 false IngestOutcome.transientError)
    else
      let a2 := CorpusArtifacts.mk (some cs)
        (if needVec then some cs else a.vectorIndex)
        (if needKw then some cs else a.keywordIndex)
      (a2, IngestionReport.mk ((if needVec then 1 else 0) + (if needKw then 1 else 0))
        (completeB a2) IngestOutcome.success)
  | _, _ =>
    if embedOk then
      let a2 := CorpusArtifacts.mk (some src) (some src) (some src)
      (a2, IngestionReport.mk 3 (completeB a2) IngestOutcome.success)
    else
      (CorpusArtifacts.mk (some src) a.vectorIndex a.keywordIndex,
        IngestionReport.mk 1 false IngestOutcome.transientError)

/-- All three artifacts present and referencing exactly the given ids. -/
def allPresentExact (a : CorpusArtifacts) (ids : List Nat) : Prop :=
  a.chunks = some ids ∧ a.vectorIndex = some ids ∧ a.keywordIndex = some ids

theorem all_contains_self (cs : List Nat) : cs.all (fun c => cs.contains c) = true := by
  rw [List.all_eq_true]
  intro c hc
  simpa using List.elem_eq_true_of_mem hc

theorem completeB_exact (cs : List Nat) :
    completeB (CorpusArtifacts.mk (some cs) (some cs) (some cs)) = true := by
  simp [completeB, all_contains_self]

/-! ### Registry entries, retrieval gating, ingest_all (spec §4.3, §6, §7) -/

/-- Modelled from the spec: a registered `CorpusEntry` of the missing
corpus registry, together with its source and on-disk artifacts. -/
structure RegEntry where
  name : String
  is_active : Bool
  src : List Nat
  artifacts : CorpusArtifacts
deriving Repr, DecidableEq

/-- Modelled from the spec: registry lookup by corpus name. -/
def lookupEntry (reg : List RegEntry) (name : String) : Option RegEntry :=
  reg.find? (fun e => e.name == name)

/-- Modelled from the spec: `CorpusUnavailableError` — retrieval against an
unknown, inactive or incomplete corpus, naming the missing components. -/
inductive CorpusUnavailableError where
  | unknownCorpus (name : String)
  | inactiveCorpus (name : String)
  | incompleteCorpus (missing : List String)
deriving Repr, DecidableEq

/-- Modelled from the spec: `retrieve(corpus_name, query_text, top_k)` of
the missing hybrid retriever.  `vq` and `kq` model the vector-index and
keyword-index queries (the ranked id list each returns from the stored
ids for the query at hand).  The entry must resolve, be active and have
all three components present; otherwise the call fails with
`CorpusUnavailableError`. -/
def retrieve (vq kq : List Nat → List Nat) (reg : List RegEntry) (name : String)
    (topk : Nat) : Except CorpusUnavailableError (List Candidate) :=
  match lookupEntry reg name with
  | none => Except.error (CorpusUnavailableError.unknownCorpus name)
  | some e =>
    if e.is_active then
      match e.artifacts.chunks, e.artifacts.vectorIndex, e.artifacts.keywordIndex with
      | some _, some vi, some ki => Except.ok (retrieveTop (vq vi) (kq ki) topk)
      | _, _, _ =>
        Except.error (CorpusUnavailableError.incompleteCorpus (missingComponents e.artifacts))
    else
      Except.error (CorpusUnavailableError.inactiveCorpus e.name)

/-- Modelled from the spec: whether the classified ingestion action calls
the embedding service — a full rebuild (chunks absent) embeds everything,
and an absent vector index forces re-embedding of the existing chunks. -/
def needsEmbedding (a : CorpusArtifacts) : Bool :=
  a.chunks.isNone || a.vectorIndex.isNone

/-- Modelled from the spec: `ingest_all` applies `ingest` to every
registered active corpus, each corpus's outcome reported individually;
`embedOkFor` models which corpuses' embedding calls succeed. -/
def ingestAll (embedOkFor : String → Bool) (reg : List RegEntry) :
    List RegEntry × List (String × IngestionReport) :=
  match reg with
  | [] => ([], [])
  | e :: rest =>
    let tail := ingestAll embedOkFor rest
    if e.is_active then
      let p := ingest (embedOkFor e.name) e.src e.artifacts false
      (RegEntry.mk e.name e.is_active e.src p.1 :: tail.1, (e.name, p.2) :: tail.2)
    else
      (e :: tail.1, tail.2)

theorem ingest_outcome_of_embedOk (src : List Nat) (a : CorpusArtifacts) (force : Bool) :
    (ingest true src a force).2.outcome = IngestOutcome.success := by
  obtain ⟨oc, ov, ok⟩ := a
  cases oc <;> cases force <;> simp [ingest]

theorem ingest_outcome_of_embed_fail (src : List Nat) (a : CorpusArtifacts)
    (h : needsEmbedding a = true) :
    (ingest false src a false).2.outcome = IngestOutcome.transientError := by
  obtain ⟨oc, ov, ok⟩ := a
  cases oc with
  | none => simp [ingest]
  | some cs =>
    simp only [needsEmbedding, Bool.or_eq_true, Option.isNone_some] at h
    rcases h with h | h
    · simp at h
    · cases ov with
      | none => simp [ingest]
      | some vi => simp at h

theorem ingestAll_own_report (f : String → Bool) (reg : List RegEntry) (e : RegEntry)
    (hmem : e ∈ reg) (hact : e.is_active = true) :
    (e.name, (ingest (f e.name) e.src e.artifacts false).2) ∈ (ingestAll f reg).2 := by
  induction reg with
  | nil => cases hmem
  | cons e0 rest ih =>
    rcases List.mem_cons.mp hmem with rfl | hmem2
    · simp [ingestAll, hact]
    · by_cases ha0 : e0.is_active = true
      · simp only [ingestAll, ha0, if_true]
        exact List.mem_cons_of_mem _ (ih hmem2)
      · simp only [ingestAll, ha0, if_false]
        exact ih hmem2

theorem ingestAll_entries_agree (f g : String → Bool) (bname : String)
    (hfg : ∀ n, n ≠ bname → f n = g n) (reg : List RegEntry) :
    List.Forall₂ (fun x y => x.name = y.name ∧ (x.name ≠ bname → x = y))
      (ingestAll f reg).1 (ingestAll g reg).1 := by
  induction reg with
  | nil => simp [ingestAll]
  | cons e0 rest ih =>
    by_cases ha : e0.is_active = true
    · simp only [ingestAll, ha, if_true]
      refine List.Forall₂.cons ⟨rfl, ?_⟩ ih
      intro hne
      rw [hfg e0.name hne]
    · simp only [ingestAll, ha, if_false]
      exact List.Forall₂.cons ⟨rfl, fun _ => rfl⟩ ih

theorem ingestAll_report_names (f : String → Bool) (reg : List RegEntry) :
    (ingestAll f reg).2.map Prod.fst
      = (reg.filter (fun e => e.is_active)).map (fun e => e.name) := by
  induction reg with
  | nil => rfl
  | cons e0 rest ih =>
    by_cases ha : e0.is_active = true
    · simp [ingestAll, ha, ih, List.filter_cons]
    · simp [ingestAll, ha, ih, List.filter_cons]

theorem missingComponents_eq_nil_iff (a : CorpusArtifacts) :
    missingComponents a = [] ↔
      ∃ cs vi ki, a.chunks = some cs ∧ a.vectorIndex = some vi ∧ a.keywordIndex = some ki := by
  obtain ⟨oc, ov, ok⟩ := a
  cases oc <;> cases ov <;> cases ok <;> simp [missingComponents]

theorem retrieve_none_eq (vq kq : List Nat → List Nat) (reg : List RegEntry) (name : String)
    (topk : Nat) (hlook : lookupEntry reg name = none) :
    retrieve vq kq reg name topk
      = Except.error (CorpusUnavailableError.unknownCorpus name) := by
  unfold retrieve
  rw [hlook]

theorem retrieve_some_eq (vq kq : List Nat → List Nat) (reg : List RegEntry) (name : String)
    (topk : Nat) (e : RegEntry) (hlook : lookupEntry reg name = some e) :
    retrieve vq kq reg name topk
      = if e.is_active then
          match e.artifacts.chunks, e.artifacts.vectorIndex, e.artifacts.keywordIndex with
          | some _, some vi, some ki => Except.ok (retrieveTop (vq vi) (kq ki) topk)
          | _, _, _ =>
            Except.error (CorpusUnavailableError.incompleteCorpus (missingComponents e.artifacts))
        else Except.error (CorpusUnavailableError.inactiveCorpus e.name) := by
  unfold retrieve
  rw [hlook]

theorem retrieve_ok_of (vq kq : List Nat → List Nat) (reg : List RegEntry) (name : String)
    (topk : Nat) (e : RegEntry) (cs vi ki : List Nat)
    (hlook : lookupEntry reg name = some e) (hact : e.is_active = true)
    (h1 : e.artifacts.chunks = some cs) (h2 : e.artifacts.vectorIndex = some vi)
    (h3 : e.artifacts.keywordIndex = some ki) :
    retrieve vq kq reg name topk = Except.ok (retrieveTop (vq vi) (kq ki) topk) := by
  rw [retrieve_some_eq vq kq reg name topk e hlook, if_pos hact, h1, h2, h3]

theorem retrieve_error_of_missing (vq kq : List Nat → List Nat) (reg : List RegEntry)
    (name : String) (topk : Nat) (e : RegEntry)
    (hlook : lookupEntry reg name = some e) (hact : e.is_active = true)
    (hmiss : missingComponents e.artifacts ≠ []) :
    retrieve vq kq reg name topk
      = Except.error (CorpusUnavailableError.incompleteCorpus (missingComponents e.artifacts)) := by
  rw [retrieve_some_eq vq kq reg name topk e hlook, if_pos hact]
  rcases h1 : e.artifacts.chunks with _ | cs <;>
    rcases h2 : e.artifacts.vectorIndex with _ | vi <;>
      rcases h3 : e.artifacts.keywordIndex with _ | ki
  all_goals
    first
      | (exact absurd ((missingComponents_eq_nil_iff e.artifacts).mpr
          ⟨cs, vi, ki, h1, h2, h3⟩) hmiss)
      | rfl

/-- C3: for each of the four component-status rows of the §4.2 state table,
seeding exactly that on-disk state (a present index references exactly the
current chunk ids, as every reachable partial build state does) and
calling `ingest` yields a corpus in which all three components are present
and both indexes reference exactly the current chunk ids — no stale ids,
no missing ids — with the report marking the corpus complete. -/
theorem c3_recovery_rows (src cs : List Nat) (kio : Option (List Nat))
    (hkio : kio = none ∨ kio = some cs) :
    (allPresentExact (ingest true src (CorpusArtifacts.mk none none none) false).1 src ∧
      (ingest true src (CorpusArtifacts.mk none none none) false).2.complete = true) ∧
    (allPresentExact (ingest true src (CorpusArtifacts.mk (some cs) none kio) false).1 cs ∧
      (ingest true src (CorpusArtifacts.mk (some cs) none kio) false).2.complete = true) ∧
    (allPresentExact (ingest true src (CorpusArtifacts.mk (some cs) (some cs) none) false).1 cs ∧
      (ingest true src (CorpusArtifacts.mk (some cs) (some cs) none) false).2.complete = true) ∧
    (allPresentExact
        (ingest true src (CorpusArtifacts.mk (some cs) (some cs) (some cs)) false).1 cs ∧
      (ingest true src
        (CorpusArtifacts.mk (some cs) (some cs) (some cs)) false).2.complete = true) := by
  refine ⟨⟨?_, ?_⟩, ⟨?_, ?_⟩, ⟨?_, ?_⟩, ⟨?_, ?_⟩⟩
  · simp [ingest, allPresentExact]
  · simp [ingest, completeB_exact]
  · rcases hkio with rfl | rfl <;> simp [ingest, allPresentExact]
  · rcases hkio with rfl | rfl <;> simp [ingest, completeB_exact]
  · simp [ingest, allPresentExact]
  · simp [ingest, completeB_exact]
  · simp [ingest, allPresentExact]
  · simp [ingest, completeB_exact]

/-- C3 witness: the theorem applied at concrete chunk lists, with the
row-2 keyword index seeded present. -/
theorem c3_recovery_rows_witness :
    ((some [10, 20] : Option (List Nat)) = none ∨
      (some [10, 20] : Option (List Nat)) = some [10, 20]) ∧
    allPresentExact
      (ingest true [1, 2] (CorpusArtifacts.mk (some [10, 20]) none (some [10, 20])) false).1
      [10, 20] :=
  ⟨Or.inr rfl, (c3_recovery_rows [1, 2] [10, 20] (some [10, 20]) (Or.inr rfl)).2.1.1⟩

/-- C4: for a corpus already in the complete state, `ingest` with
`force_rebuild = false` performs zero writes, leaves the artifacts
unchanged and reports `complete = true`, and an immediately following
second call again performs zero writes and reports `complete = true`. -/
theorem c4_ingest_idempotent (src : List Nat) (a : CorpusArtifacts)
    (hc : completeB a = true) :
    (ingest true src a false).1 = a ∧
    (ingest true src a false).2.writes = 0 ∧
    (ingest true src a false).2.complete = true ∧
    (ingest true src ((ingest true src a false).1) false).2.writes = 0 ∧
    (ingest true src ((ingest true src a false).1) false).2.complete = true := by
  obtain ⟨oc, ov, ok⟩ := a
  cases oc with
  | none => simp [completeB] at hc
  | some cs =>
    cases ov with
    | none => simp [completeB] at hc
    | some vi =>
      cases ok with
      | none => simp [completeB] at hc
      | some ki =>
        have h1 : ingest true src (CorpusArtifacts.mk (some cs) (some vi) (some ki)) false
            = (CorpusArtifacts.mk (some cs) (some vi) (some ki),
              IngestionReport.mk 0
                (completeB (CorpusArtifacts.mk (some cs) (some vi) (some ki)))
                IngestOutcome.success) := by
          simp [ingest]
        rw [h1]
        simp [h1, hc]

/-- C4 witness: the theorem applied at a concrete complete corpus. -/
theorem c4_ingest_idempotent_witness :
    completeB (CorpusArtifacts.mk (some [5]) (some [5]) (some [5])) = true ∧
    (ingest true [5]
      ((ingest true [5] (CorpusArtifacts.mk (some [5]) (some [5]) (some [5])) false).1)
      false).2.writes = 0 :=
  ⟨by decide,
    (c4_ingest_idempotent [5] (CorpusArtifacts.mk (some [5]) (some [5]) (some [5]))
      (by decide)).2.2.2.1⟩

/-- C5: `retrieve` returns results exactly when the corpus name resolves to
a registered entry with `is_active = true` and all three components
present; an active resolved entry with missing components fails with
`CorpusUnavailableError` naming exactly the missing components — in
particular, with chunks and keyword index present but the vector index
absent, the error names `vector_index`. -/
theorem c5_retrieve_gating (vq kq : List Nat → List Nat) (reg : List RegEntry)
    (name : String) (topk : Nat) :
    ((∃ res, retrieve vq kq reg name topk = Except.ok res) ↔
      (∃ e, lookupEntry reg name = some e ∧ e.is_active = true ∧
        missingComponents e.artifacts = [])) ∧
    (∀ e, lookupEntry reg name = some e → e.is_active = true →
      missingComponents e.artifacts ≠ [] →
      retrieve vq kq reg name topk
        = Except.error
            (CorpusUnavailableError.incompleteCorpus (missingComponents e.artifacts))) ∧
    (∀ e cs ki, lookupEntry reg name = some e → e.is_active = true →
      e.artifacts.chunks = some cs → e.artifacts.keywordIndex = some ki →
      e.artifacts.vectorIndex = none →
      retrieve vq kq reg name topk
        = Except.error (CorpusUnavailableError.incompleteCorpus ["vector_index"])) := by
  refine ⟨⟨?_, ?_⟩, ?_, ?_⟩
  · rintro ⟨res, hres⟩
    cases hlook : lookupEntry reg name with
    | none =>
      rw [retrieve_none_eq vq kq reg name topk hlook] at hres
      exact absurd hres (by simp)
    | some e =>
      by_cases hact : e.is_active = true
      · rw [retrieve_some_eq vq kq reg name topk e hlook, if_pos hact] at hres
        rcases h1 : e.artifacts.chunks with _ | cs <;>
          rcases h2 : e.artifacts.vectorIndex with _ | vi <;>
            rcases h3 : e.artifacts.keywordIndex with _ | ki <;>
              rw [h1, h2, h3] at hres
        · simp at hres
        · simp at hres
        · simp at hres
        · simp at hres
        · simp at hres
        · simp at hres
        · simp at hres
        · exact ⟨e, rfl, hact,
            (missingComponents_eq_nil_iff e.artifacts).mpr ⟨cs, vi, ki, h1, h2, h3⟩⟩
      · rw [retrieve_some_eq vq kq reg name topk e hlook, if_neg hact] at hres
        exact absurd hres (by simp)
  · rintro ⟨e, hlook, hact, hmiss⟩
    obtain ⟨cs, vi, ki, h1, h2, h3⟩ := (missingComponents_eq_nil_iff e.artifacts).mp hmiss
    exact ⟨_, retrieve_ok_of vq kq reg name topk e cs vi ki hlook hact h1 h2 h3⟩
  · intro e hlook hact hne
    exact retrieve_error_of_missing vq kq reg name topk e hlook hact hne
  · intro e cs ki hlook hact h1 h3 h2
    have hmm : missingComponents e.artifacts = ["vector_index"] := by
      simp [missingComponents, h1, h2, h3]
    have hres := retrieve_error_of_missing vq kq reg name topk e hlook hact (by rw [hmm]; simp)
    rw [hmm] at hres
    exact hres

/-- C5 witness: the theorem's vector-index case applied to a concrete
registry holding one active corpus whose vector index is absent while
chunks and keyword index are present. -/
theorem c5_retrieve_gating_witness :
    retrieve (fun l => l) (fun l => l)
      [RegEntry.mk "fable" true [1] (CorpusArtifacts.mk (some [1]) none (some [1]))]
      "fable" 2
      = Except.error (CorpusUnavailableError.incompleteCorpus ["vector_index"]) :=
  (c5_retrieve_gating (fun l => l) (fun l => l)
      [RegEntry.mk "fable" true [1] (CorpusArtifacts.mk (some [1]) none (some [1]))]
      "fable" 2).2.2
    (RegEntry.mk "fable" true [1] (CorpusArtifacts.mk (some [1]) none (some [1])))
    [1] [1] (by decide) rfl rfl rfl rfl

/-- C6: with the embedding call failing deterministically for exactly the
corpus named `bname` (an active corpus whose classified action calls the
embedding service), `ingest_all` reports a `TransientIngestionError` for
`bname` and success for every other active corpus, processes every active
corpus (one report each, in registry order), and leaves every other
corpus's entry exactly as the failure-free run would — the failure mutates
no other corpus's artifacts. -/
theorem c6_partial_failure_isolation (reg : List RegEntry) (bname : String)
    (eB : RegEntry) (hmem : eB ∈ reg) (hBn : eB.name = bname)
    (hBact : eB.is_active = true) (hBneed : needsEmbedding eB.artifacts = true) :
    (∃ rep, (bname, rep) ∈ (ingestAll (fun n => n != bname) reg).2 ∧
      rep.outcome = IngestOutcome.transientError) ∧
    (∀ e, e ∈ reg → e.is_active = true → e.name ≠ bname →
      ∃ rep, (e.name, rep) ∈ (ingestAll (fun n => n != bname) reg).2 ∧
        rep.outcome = IngestOutcome.success) ∧
    List.Forall₂ (fun x y => x.name = y.name ∧ (x.name ≠ bname → x = y))
      (ingestAll (fun n => n != bname) reg).1 (ingestAll (fun _ => true) reg).1 ∧
    (ingestAll (fun n => n != bname) reg).2.map Prod.fst
      = (reg.filter (fun e => e.is_active)).map (fun e => e.name) := by
  refine ⟨?_, ?_, ?_, ?_⟩
  · refine ⟨(ingest ((fun n => n != bname) bname) eB.src eB.artifacts false).2, ?_, ?_⟩
    · have hrep := ingestAll_own_report (fun n => n != bname) reg eB hmem hBact
      rw [hBn] at hrep
      exact hrep
    · have hf : (bname != bname) = false := by simp
      simp only [hf]
      exact ingest_outcome_of_embed_fail eB.src eB.artifacts hBneed
  · intro e hmem2 hact2 hne
    have ht : (e.name != bname) = true := by simpa using hne
    refine ⟨(ingest ((fun n => n != bname) e.name) e.src e.artifacts false).2,
      ingestAll_own_report _ reg e hmem2 hact2, ?_⟩
    simp only [ht]
    exact ingest_outcome_of_embedOk e.src e.artifacts false
  · exact ingestAll_entries_agree _ _ bname (fun n hn => by simp [hn]) reg
  · exact ingestAll_report_names _ reg

/-- C6 witness: the theorem applied to three concrete corpuses a, b, c of
which only b needs embedding and only b's embedding calls fail; the
resulting report list covers the active corpuses in order. -/
theorem c6_partial_failure_isolation_witness :
    needsEmbedding
        (RegEntry.mk "b" true [2] (CorpusArtifacts.mk (some [2]) none none)).artifacts = true ∧
    (ingestAll (fun n => n != "b")
        [RegEntry.mk "a" true [1] (CorpusArtifacts.mk (some [1]) (some [1]) (some [1])),
          RegEntry.mk "b" true [2] (CorpusArtifacts.mk (some [2]) none none),
          RegEntry.mk "c" true [3] (CorpusArtifacts.mk (some [3]) (some [3]) (some [3]))]).2.map
        Prod.fst
      = ([RegEntry.mk "a" true [1] (CorpusArtifacts.mk (some [1]) (some [1]) (some [1])),
          RegEntry.mk "b" true [2] (CorpusArtifacts.mk (some [2]) none none),
          RegEntry.mk "c" true [3]
            (CorpusArtifacts.mk (some [3]) (some [3]) (some [3]))].filter
          (fun e => e.is_active)).map (fun e => e.name) :=
  ⟨by decide,
    (c6_partial_failure_isolation
      [RegEntry.mk "a" true [1] (CorpusArtifacts.mk (some [1]) (some [1]) (some [1])),
        RegEntry.mk "b" true [2] (CorpusArtifacts.mk (some [2]) none none),
        RegEntry.mk "c" true [3] (CorpusArtifacts.mk (some [3]) (some [3]) (some [3]))]
      "b" (RegEntry.mk "b" true [2] (CorpusArtifacts.mk (some [2]) none none))
      (by decide) rfl rfl (by decide)).2.2.2⟩

end Storyteller
